import Mathlib

/-!
Verification of the embedded-language server core of the
laravel-blade-snippets extension.

The development shallowly embeds three source units:

* `utils/prettier.ts` (the `format` re-indentation wrapper) and
  `blade/peekFileDefinition.ts` (template-include jump-to-definition);
* `server/src/javascriptLibs.ts` (the memoized library loader);
* `modes/javascriptMode.ts` / `modes/lessMode.ts` (the per-language
  adapters: document-version tracking, completion, definition/reference
  filtering, symbol collection, range formatting).

External collaborators (the prettier formatter, the TypeScript language
service, the filesystem, the LSP TextDocument line index) are modelled as
explicit function parameters, so every definition here is executable and
the theorems quantify over the collaborator behaviour.

JavaScript strings are modelled as Lean `String`; the string helpers below
are structural re-implementations of the JS operations used by the source
(`split`, `join`, `trim`, `trimEnd`, `replaceAll`) restricted to the ASCII
whitespace the source actually manipulates, written by structural recursion
on the character list so that concrete instances reduce inside the kernel.
-/

namespace Blade

/-- ASCII whitespace as trimmed by the JS `trim`/`trimEnd` calls in the
source (the source never produces the exotic Unicode whitespace that JS
`trim` additionally strips). -/
def isWhite (c : Char) : Bool :=
  c = ' ' || c = '\t' || c = '\n' || c = '\r'

/-- JS `String.prototype.trim` (ASCII fragment). -/
def trimStr (s : String) : String :=
  String.mk (((s.data.dropWhile isWhite).reverse.dropWhile isWhite).reverse)

/-- JS `String.prototype.trimEnd` (ASCII fragment). -/
def trimEndStr (s : String) : String :=
  String.mk ((s.data.reverse.dropWhile isWhite).reverse)

/-- JS `str.split(sep)` for a one-character separator, on character lists.
`split` never returns the empty list: an empty input yields `[[]]`. -/
def splitOnChar (sep : Char) : List Char → List (List Char)
  | [] => [[]]
  | c :: cs =>
    match splitOnChar sep cs with
    | [] => if c = sep then [[], []] else [[c]]
    | l :: ls => if c = sep then [] :: l :: ls else (c :: l) :: ls

/-- JS `str.split(sep)` for a one-character separator, on strings. -/
def splitOnStr (sep : Char) (s : String) : List String :=
  (splitOnChar sep s.data).map String.mk

/-- JS `array.join(sep)`. -/
def joinStrs (sep : String) : List String → String
  | [] => ""
  | [a] => a
  | a :: rest => a ++ sep ++ joinStrs sep rest

/-- `repeat` from `utils/strings.ts`. Modelled from the spec: the utility
module is not part of the provided sources; the spec's re-indentation
contract ("tabSize spaces are one indent unit") fixes `repeat(value, count)`
as `count` copies of `value`. -/
def repeatStr (s : String) (n : Nat) : String :=
  String.mk (List.flatten (List.replicate n s.data))

/-! ## `utils/prettier.ts` — the `format` re-indentation wrapper -/

/-- Characters after the last `'\n'` of the list, or `none` when the list
has no newline.  Mirrors where the regex `\n\r?[ \t]*$` can anchor: any
match must start at the last newline of the text. -/
def afterLastNewline : List Char → Option (List Char)
  | [] => none
  | c :: cs =>
    match afterLastNewline cs with
    | some tail => some tail
    | none => if c = '\n' then some cs else none

/-- Does a character-list match `\r?[ \t]*` exactly (the part of the
trailing-indent regex after its newline)? -/
def tagTailOk : List Char → Bool
  | '\r' :: rest => rest.all (fun c => c = ' ' || c = '\t')
  | rest => rest.all (fun c => c = ' ' || c = '\t')

/-- `get(/(\n\r?[ \t]*)$/.exec(text), 0) ?? ""` from `format`: the trailing
whitespace suffix of `text` beginning at its last newline, when the last
line of `text` is blank; `""` otherwise. -/
def tagIndentOf (text : String) : String :=
  match afterLastNewline text.data with
  | some tail => if tagTailOk tail then String.mk ('\n' :: tail) else ""
  | none => ""

/-- `prefixIndent` from `format`: `tagIndent.replaceAll("\n", "")` (the
`|| ""` in the source is the identity on strings since the empty string is
its own replacement). -/
def prefixIndentOf (text : String) : String :=
  String.mk ((tagIndentOf text).data.filter (fun c => ¬c = '\n'))

/-- The extra indent unit appended to `prefixIndent` when building
`intdent`: `insertSpaces ? repeat(" ", tabSize) : "\t"`. -/
def indentUnit (tabSize : Nat) (insertSpaces : Bool) : String :=
  if insertSpaces then repeatStr " " tabSize else "\t"

/-- `format` from `utils/prettier.ts`.  `pretty` stands for the external
`prettier.format` call at the given options (prettier itself is an excluded
collaborator); everything after that call is embedded verbatim: extract the
trailing indent of the input, prefix every line of the formatter output with
that indent plus one extra indent unit, trim the end, and re-attach the
trailing indent. -/
def format (pretty : String → String) (text : String)
    (tabSize : Nat) (insertSpaces : Bool) : String :=
  let newText := pretty text
  let tagIndent := tagIndentOf text
  let intdent := prefixIndentOf text ++ indentUnit tabSize insertSpaces
  let indented := joinStrs "\n" ((splitOnStr '\n' newText).map (fun line => intdent ++ line))
  ("\n" ++ trimEndStr indented) ++ tagIndent

/-! ## Protocol data shapes (vscode-languageserver-types fragment) -/

structure Pos where
  line : Nat
  character : Nat
  deriving DecidableEq, Repr

/-- An LSP `Range`.  The `stop` field is the source's `end`, a Lean
keyword. -/
structure RangeL where
  start : Pos
  stop : Pos
  deriving DecidableEq, Repr

structure Loc where
  uri : String
  range : RangeL
  deriving DecidableEq, Repr

structure TextEditL where
  range : RangeL
  newText : String
  deriving DecidableEq, Repr

/-! ## `blade/peekFileDefinition.ts` — template-include jump-to-definition -/

/-- One match of `/@(?:include|extends)\((.+?('|"))/gi` on the line.  The
`stop` field is the source's `end` (a Lean keyword):
`match.index + match[0].length`. -/
structure IncludePart where
  start : Nat
  stop : Nat
  text : String
  template : String
  deriving DecidableEq, Repr

/-- Case-insensitive test for the literal directive head `@include(` or
`@extends(` (each exactly 9 characters) at the head of the character
list. -/
def dirMatch (cs : List Char) : Bool :=
  ((cs.take 9).map Char.toLower) = "@include(".data
    || ((cs.take 9).map Char.toLower) = "@extends(".data

/-- Scan for the quote terminating `(.+?('|"))`: the least index `j ≥ 1`
into the characters following the `(` such that character `j` is a quote
and no newline occurs at or before it (`.` matches neither `\n` nor `\r`).
Index 0 cannot terminate the match because `.+?` must consume at least one
character first. -/
def quoteScan : List Char → Nat → Option Nat
  | [], _ => none
  | c :: rest, j =>
    if c = '\n' || c = '\r' then none
    else if 1 ≤ j && (c = '\'' || c = '"') then some j
    else quoteScan rest (j + 1)

/-- The global-regex loop of `peekFileDefinition` (`while (match =
regex.exec(lineText))`): on a successful match the next search resumes
right after the matched text (`lastIndex`); on a failed attempt at a
directive head the engine advances one character.  The first argument is
the absolute index of the current scan position; the second is fuel, one
unit per attempt.  Each attempt consumes at least one character, so fuel
equal to the character count never runs out before the list is empty. -/
def scanParts : Nat → Nat → List Char → List IncludePart
  | _, 0, _ => []
  | _, _ + 1, [] => []
  | idx, fuel + 1, c :: rest =>
    if dirMatch (c :: rest) then
      match quoteScan ((c :: rest).drop 9) 0 with
      | some q =>
        let len := 10 + q
        let matched := (c :: rest).take len
        let tplChars := (matched.drop 9).filter (fun ch => ¬(ch = '\'' || ch = '"'))
        { start := idx, stop := idx + len, text := String.mk matched,
          template := String.mk tplChars } :: scanParts (idx + len) fuel ((c :: rest).drop len)
      | none => scanParts (idx + 1) fuel rest
    else scanParts (idx + 1) fuel rest

/-- All `@include`/`@extends` matches of the line, with absolute indices:
the `includeParts` array built by the regex loop. -/
def findIncludeParts (lineText : String) : List IncludePart :=
  scanParts 0 lineText.data.length lineText.data

/-- `getWorkspacePath`: the first workspace folder uri that is a prefix of
the document uri (`document.uri.indexOf(a.uri) === 0`); `none` models the
source's `null` (no folders, or none matching). -/
def getWorkspacePath (workspaceFolders : List String) (docUri : String) : Option String :=
  (workspaceFolders.filter (fun a => a.data.isPrefixOf docUri.data)).head?

/-- `joinUri(...args)` is `args.join("/")`. -/
def joinUri (args : List String) : String := joinStrs "/" args

/-- `peekFileDefinition`.  The host `TextDocument` is an external
collaborator: `lineText` stands for
`document.getText(Range(position.line, 0, position.line + 1, 0))` — the
text of the cursor's line — and `character` for `position.character`.
`viewsPath` is `options.settings.blade.views.path`, `folders` the
workspace folder uris. -/
def peekFileDefinition (lineText : String) (character : Nat)
    (folders : List String) (docUri : String) (viewsPath : String) : List Loc :=
  let includeParts :=
    if lineText ≠ "" ∧ trimStr lineText ≠ "" then findIncludeParts lineText else []
  let viewsBaseUri := joinUri [(getWorkspacePath folders docUri).getD "", viewsPath]
  match (includeParts.filter
      (fun part => part.start < character && character < part.stop)).head? with
  | some peekPart =>
      [{ uri := joinUri (viewsBaseUri :: splitOnStr '.' peekPart.template) ++ ".blade.php",
         range := { start := { line := 0, character := 0 },
                    stop := { line := 0, character := 0 } } }]
  | none => []

/-! ## `server/src/javascriptLibs.ts` — the memoized library loader -/

/-- The two installation-resolved paths of the loader (`JQUERY_PATH` and
`TYPESCRIPT_LIB_SOURCE`); their exact values depend on the install
location, so they are parameters of the embedding. -/
structure LibConfig where
  jqueryPath : String
  typescriptLibSource : String

/-- The filesystem collaborator: `existsSync`, and `readFileSync` where
`none` models the call throwing. -/
structure FileSys where
  existsSync : String → Bool
  readFile : String → Option String

/-- The loader's module state: the `contents` memo map plus observation
logs — `logs` records each `console.log` and `reads` each `readFileSync`
call, so the theorems can state "logged once" and "no second disk
access". -/
structure LibState where
  contents : List (String × String)
  logs : List String
  reads : List String
  deriving DecidableEq, Repr

/-- node's `path.join(root, name)` for the single join the loader
performs. -/
def joinPath (a b : String) : String := a ++ "/" ++ b

/-- The path-resolution block of `loadLibrary`: alias first, then
name-as-existing-path, then relative to the TypeScript lib root. -/
def resolvePath (cfg : LibConfig) (fs : FileSys) (name : String) : String :=
  if name = "jquery" then cfg.jqueryPath
  else if fs.existsSync name then name
  else joinPath cfg.typescriptLibSource name

/-- `loadLibrary`.  A memo hit (`typeof content === "string"`) returns
immediately; otherwise the resolved path is read, a failed read is logged
and memoized as `""`, and a successful read is memoized verbatim. -/
def loadLibrary (cfg : LibConfig) (fs : FileSys) (st : LibState) (name : String) :
    String × LibState :=
  match st.contents.lookup name with
  | some content => (content, st)
  | none =>
    let libPath := resolvePath cfg fs name
    match fs.readFile libPath with
    | some content =>
        (content, { st with contents := (name, content) :: st.contents,
                            reads := st.reads ++ [libPath] })
    | none =>
        ("", { st with contents := (name, "") :: st.contents,
                       logs := st.logs ++
                         ["Unable to load library " ++ name ++ " at " ++ libPath],
                       reads := st.reads ++ [libPath] })

/-! ## `modes/javascriptMode.ts` — the script-language adapter -/

/-- `const FILE_NAME = "vscode://javascript/1"` — the single synthetic
script file identity. -/
def FILE_NAME : String := "vscode://javascript/1"

/-- The identity-relevant part of an LSP `TextDocument`: uri, version and
text.  Equal `(uri, version)` implies equal text per the protocol. -/
structure HostDoc where
  uri : String
  version : Int
  text : String
  deriving DecidableEq, Repr

/-- `jsDocuments.get(doc)` — extraction of the embedded javascript
sub-document.  Modelled from the spec: `languageModelCache` and
`embeddedSupport` are not among the provided sources; per the spec a
virtual sub-document keeps the host document's identity `(uri, version)`
and exposes derived text at identical offsets, so the extraction is a pure
text transformation that preserves `uri` and `version`. -/
def embedDoc (extract : String → String) (doc : HostDoc) : HostDoc :=
  { doc with text := extract doc.text }

/-- The adapter's ambient state: the `currentTextDocument` slot (holding
the embedded sub-document, `none` before the first request) and the
`scriptFileVersion` counter. -/
structure JsState where
  current : Option HostDoc
  scriptFileVersion : Nat
  deriving DecidableEq, Repr

/-- `updateCurrentTextDocument`.  The returned `Bool` records whether the
embedded sub-document was (re-)fetched from `jsDocuments` on this call. -/
def updateCurrentTextDocument (extract : String → String) (st : JsState)
    (doc : HostDoc) : JsState × Bool :=
  let changed :=
    match st.current with
    | none => true
    | some cur => doc.uri ≠ cur.uri ∨ doc.version ≠ cur.version
  if changed then
    ({ current := some (embedDoc extract doc),
       scriptFileVersion := st.scriptFileVersion + 1 }, true)
  else (st, false)

/-- A sequence of requests: run `updateCurrentTextDocument` for each
incoming document in order, counting the fetches. -/
def updateMany (extract : String → String) (st : JsState) :
    List HostDoc → JsState × Nat
  | [] => (st, 0)
  | d :: ds =>
    let step := updateCurrentTextDocument extract st d
    let rest := updateMany extract step.1 ds
    (rest.1, (if step.2 then 1 else 0) + rest.2)

/-- `convertRange`: an analyzer text span in `[start, start + length)`
offset form mapped into a `Range` through the document's line index
(`document.positionAt`, an external collaborator passed as `positionAt`).
An absent `start` yields a zero-length range at offset 0; an absent or
zero `length` (`span.length || 0`) yields a zero-length range. -/
def convertRange (positionAt : Nat → Pos) (start : Option Nat) (length : Option Nat) :
    RangeL :=
  match start with
  | none =>
    let pos := positionAt 0
    { start := pos, stop := pos }
  | some s => { start := positionAt s, stop := positionAt (s + length.getD 0) }

/-- The protocol completion-item kind enumeration (fragment used by the
source's `convertKind` table). -/
inductive CompletionItemKind where
  | keyword | variable | field | function | enum | module | class_ | interface | file
  | property
  deriving DecidableEq, Repr

/-- `convertKind`: the fixed lookup table from TypeScript completion kind
strings into the protocol enumeration, defaulting to `property`. -/
def convertKind (kind : String) : CompletionItemKind :=
  if kind = "primitive type" ∨ kind = "keyword" then .keyword
  else if kind = "var" ∨ kind = "local var" then .variable
  else if kind = "property" ∨ kind = "getter" ∨ kind = "setter" then .field
  else if kind = "function" ∨ kind = "method" ∨ kind = "construct" ∨ kind = "call"
      ∨ kind = "index" then .function
  else if kind = "enum" then .enum
  else if kind = "module" then .module
  else if kind = "class" then .class_
  else if kind = "interface" then .interface
  else if kind = "warning" then .file
  else .property

/-- One entry of `ts.CompletionInfo.entries`. -/
structure CompletionEntry where
  name : String
  sortText : String
  kind : String
  deriving DecidableEq, Repr

/-- The `data` payload attached to each completion item for `doResolve`. -/
structure ItemData where
  languageId : String
  uri : String
  offset : Nat
  deriving DecidableEq, Repr

/-- The completion item the javascript mode builds per entry. -/
structure CompletionItemL where
  uri : String
  position : Pos
  label : String
  sortText : String
  kind : CompletionItemKind
  textEdit : TextEditL
  data : ItemData
  deriving DecidableEq, Repr

structure CompletionListL where
  isIncomplete : Bool
  items : List CompletionItemL
  deriving DecidableEq, Repr

/-- `doComplete` of the javascript mode after the document update.  The
TypeScript service call `getCompletionsAtPosition` is the external
analyzer, passed as `completions` (`none` models a falsy result); `offset`
is `currentTextDocument.offsetAt(position)` and `replaceRange` the word
range computed by `getWordAtText`/`convertRange` — both functions of
external collaborators. -/
def doComplete (completions : Option (List CompletionEntry)) (docUri : String)
    (position : Pos) (offset : Nat) (replaceRange : RangeL) : CompletionListL :=
  match completions with
  | none => { isIncomplete := false, items := [] }
  | some entries =>
    { isIncomplete := false,
      items := entries.map (fun entry =>
        { uri := docUri, position := position, label := entry.name,
          sortText := entry.sortText, kind := convertKind entry.kind,
          textEdit := { range := replaceRange, newText := entry.name },
          data := { languageId := "javascript", uri := docUri, offset := offset } }) }

/-- `doComplete` of the less mode: a direct pass-through of the LESS
language service's result. -/
def lessDoComplete (serviceResult : CompletionListL) : CompletionListL :=
  serviceResult

/-- One entry of the TypeScript service's definition/reference results:
a file name plus a text span. -/
structure TsFileSpan where
  fileName : String
  start : Option Nat
  length : Option Nat
  deriving DecidableEq, Repr

/-- `findDefinition` of the javascript mode: `none` when the service
returns a falsy result, otherwise the entries restricted to the synthetic
script file and rebased onto the host document's uri. -/
def findDefinition (positionAt : Nat → Pos) (docUri : String)
    (definition : Option (List TsFileSpan)) : Option (List Loc) :=
  match definition with
  | some ds =>
    some ((ds.filter (fun d => d.fileName = FILE_NAME)).map
      (fun d => { uri := docUri, range := convertRange positionAt d.start d.length }))
  | none => none

/-- `findReferences` of the javascript mode: like `findDefinition` but an
empty list, not `null`, on a falsy service result. -/
def findReferences (positionAt : Nat → Pos) (docUri : String)
    (references : Option (List TsFileSpan)) : List Loc :=
  match references with
  | some ds =>
    (ds.filter (fun d => d.fileName = FILE_NAME)).map
      (fun d => { uri := docUri, range := convertRange positionAt d.start d.length })
  | none => []

/-- The protocol symbol-kind enumeration (fragment used by
`convertSymbolKind`). -/
inductive SymbolKindL where
  | variable | function | enum | module | class_ | interface | method | property
  deriving DecidableEq, Repr

/-- `convertSymbolKind`: the fixed lookup table from TypeScript navigation
kind strings, defaulting to `variable`. -/
def convertSymbolKind (kind : String) : SymbolKindL :=
  if kind = "var" ∨ kind = "local var" ∨ kind = "const" then .variable
  else if kind = "function" ∨ kind = "local function" then .function
  else if kind = "enum" then .enum
  else if kind = "module" then .module
  else if kind = "class" then .class_
  else if kind = "interface" then .interface
  else if kind = "method" then .method
  else if kind = "property" ∨ kind = "getter" ∨ kind = "setter" then .property
  else .variable

mutual

/-- A `ts.NavigationBarItem`: name text, raw kind string, the first span
(`spans[0]`, which the TypeScript API guarantees present) and nested
children.  The children are a `NavForest` (a copy of `List NavItem` as a
mutual inductive, so that the collector below is plain structural
recursion). -/
inductive NavItem where
  | mk (text : String) (kind : String) (spanStart : Nat) (spanLength : Nat)
      (childItems : NavForest)

/-- A list of `ts.NavigationBarItem`s (`childItems`, and the top-level
`getNavigationBarItems` result). -/
inductive NavForest where
  | nil
  | cons (head : NavItem) (tail : NavForest)

end

def NavItem.text : NavItem → String
  | .mk t _ _ _ _ => t

def NavItem.kind : NavItem → String
  | .mk _ k _ _ _ => k

def NavItem.spanStart : NavItem → Nat
  | .mk _ _ s _ _ => s

def NavItem.spanLength : NavItem → Nat
  | .mk _ _ _ l _ => l

def NavItem.childItems : NavItem → NavForest
  | .mk _ _ _ _ c => c

/-- `item.text + item.kind + item.spans[0].start` — the dedup signature
string (JS coerces the number with decimal rendering). -/
def navSig (item : NavItem) : String :=
  item.text ++ item.kind ++ Nat.repr item.spanStart

structure SymbolInformationL where
  name : String
  kind : SymbolKindL
  location : Loc
  containerName : Option String
  deriving DecidableEq, Repr

/-- The `symbol` local of `collectSymbols`: the `SymbolInformation` built
from a navigation bar item and the current container label. -/
def navSymbol (positionAt : Nat → Pos) (docUri : String) (item : NavItem)
    (containerLabel : Option String) : SymbolInformationL :=
  { name := item.text
    kind := convertSymbolKind item.kind
    location :=
      { uri := docUri
        range := convertRange positionAt (some item.spanStart) (some item.spanLength) }
    containerName := containerLabel }

mutual

/-- `collectSymbols(item, containerLabel)`: skip `script` items and items
whose signature is already in `existing`; otherwise emit the symbol, record
the signature and pass the item's own name down as the children's
container label.  The accumulator pairs the `result` array with the
`existing` signature set, threaded exactly as the source's shared mutable
state. -/
def collectSymbols (positionAt : Nat → Pos) (docUri : String) :
    NavItem → Option String →
    List SymbolInformationL × List String →
    List SymbolInformationL × List String
  | .mk text kind spanStart spanLength childItems, containerLabel, acc =>
    let sig := navSig (.mk text kind spanStart spanLength childItems)
    let symbol :=
      navSymbol positionAt docUri (.mk text kind spanStart spanLength childItems)
        containerLabel
    let step :=
      if kind ≠ "script" ∧ sig ∉ acc.2 then
        ((acc.1 ++ [symbol], acc.2 ++ [sig]), some text)
      else (acc, containerLabel)
    collectSymbolsList positionAt docUri childItems step.2 step.1

/-- The `for (let child of item.childItems)` loop (also the top-level
`items.forEach`). -/
def collectSymbolsList (positionAt : Nat → Pos) (docUri : String) :
    NavForest → Option String →
    List SymbolInformationL × List String →
    List SymbolInformationL × List String
  | .nil, _, acc => acc
  | .cons item rest, containerLabel, acc =>
    collectSymbolsList positionAt docUri rest containerLabel
      (collectSymbols positionAt docUri item containerLabel acc)

end

/-- `findDocumentSymbols` of the javascript mode: collect over the
navigation bar items the TypeScript service reports (`none` models a falsy
result). -/
def findDocumentSymbols (positionAt : Nat → Pos) (docUri : String)
    (items : Option NavForest) : List SymbolInformationL :=
  match items with
  | some its => (collectSymbolsList positionAt docUri its none ([], [])).1
  | none => []

/-- `format` of the javascript mode: `text` stands for
`document.getText(range)` (the host `TextDocument` is external), and
`pretty` for the raw prettier engine behind `utils/prettier.format` with
the `babel` parser.  Blank selection yields `null` (`none`). -/
def jsModeFormat (pretty : String → String) (text : String) (range : RangeL)
    (tabSize : Nat) (insertSpaces : Bool) : Option (List TextEditL) :=
  if trimStr text ≠ "" then
    some [{ range := range, newText := format pretty text tabSize insertSpaces }]
  else none

/-- `format` of the less mode — textually the same logic with the `less`
parser. -/
def lessModeFormat (pretty : String → String) (text : String) (range : RangeL)
    (tabSize : Nat) (insertSpaces : Bool) : Option (List TextEditL) :=
  if trimStr text ≠ "" then
    some [{ range := range, newText := format pretty text tabSize insertSpaces }]
  else none

/-! ## Claim C2 — library read failure: log once, memoize `""` -/

/-- C2: when a library name is not memoized and reading its resolved path
fails, `loadLibrary` returns `""`, logs exactly one failure message,
memoizes `""` for the name, and a second call for the same name returns
`""` with the state unchanged — no further read, no further log; the read
exception is never propagated (the embedding is a total function). -/
theorem loadLibrary_read_failure (cfg : LibConfig) (fs : FileSys) (st : LibState)
    (name : String)
    (hmiss : st.contents.lookup name = none)
    (hfail : fs.readFile (resolvePath cfg fs name) = none) :
    (loadLibrary cfg fs st name).1 = "" ∧
    (loadLibrary cfg fs st name).2.logs =
      st.logs ++ ["Unable to load library " ++ name ++ " at " ++ resolvePath cfg fs name] ∧
    (loadLibrary cfg fs st name).2.contents.lookup name = some "" ∧
    loadLibrary cfg fs (loadLibrary cfg fs st name).2 name =
      ("", (loadLibrary cfg fs st name).2) := by
  simp [loadLibrary, hmiss, hfail, List.lookup]

/-- Witness for C2 at a concrete missing library name and an empty
filesystem. -/
theorem loadLibrary_read_failure_witness :
    (loadLibrary ⟨"JQ", "TSROOT"⟩ ⟨fun _ => false, fun _ => none⟩ ⟨[], [], []⟩
        "lib.dom.d.ts").1 = "" ∧
    (loadLibrary ⟨"JQ", "TSROOT"⟩ ⟨fun _ => false, fun _ => none⟩ ⟨[], [], []⟩
        "lib.dom.d.ts").2.logs =
      [] ++ ["Unable to load library " ++ "lib.dom.d.ts" ++ " at " ++
        resolvePath ⟨"JQ", "TSROOT"⟩ ⟨fun _ => false, fun _ => none⟩ "lib.dom.d.ts"] ∧
    (loadLibrary ⟨"JQ", "TSROOT"⟩ ⟨fun _ => false, fun _ => none⟩ ⟨[], [], []⟩
        "lib.dom.d.ts").2.contents.lookup "lib.dom.d.ts" = some "" ∧
    loadLibrary ⟨"JQ", "TSROOT"⟩ ⟨fun _ => false, fun _ => none⟩
        (loadLibrary ⟨"JQ", "TSROOT"⟩ ⟨fun _ => false, fun _ => none⟩ ⟨[], [], []⟩
          "lib.dom.d.ts").2 "lib.dom.d.ts" =
      ("", (loadLibrary ⟨"JQ", "TSROOT"⟩ ⟨fun _ => false, fun _ => none⟩ ⟨[], [], []⟩
        "lib.dom.d.ts").2) :=
  loadLibrary_read_failure ⟨"JQ", "TSROOT"⟩ ⟨fun _ => false, fun _ => none⟩ ⟨[], [], []⟩
    "lib.dom.d.ts" rfl rfl

/-! ## Claim C3 — library path resolution order -/

/-- C3: for a non-memoized name the read happens at the resolved path, and
resolution tries the cases in this exact order: the `jquery` alias maps to
the fixed jquery definitions path (regardless of the filesystem), any
other name that exists as a path is used directly, and any remaining name
is joined onto the TypeScript lib support-files root. -/
theorem resolvePath_order (cfg : LibConfig) (fs : FileSys) (st : LibState)
    (name : String) :
    resolvePath cfg fs "jquery" = cfg.jqueryPath ∧
    (name ≠ "jquery" → fs.existsSync name = true → resolvePath cfg fs name = name) ∧
    (name ≠ "jquery" → fs.existsSync name = false →
      resolvePath cfg fs name = joinPath cfg.typescriptLibSource name) ∧
    (st.contents.lookup name = none →
      (loadLibrary cfg fs st name).2.reads = st.reads ++ [resolvePath cfg fs name]) := by
  refine ⟨by simp [resolvePath], fun h he => by simp [resolvePath, h, he],
    fun h he => by simp [resolvePath, h, he], fun hmiss => ?_⟩
  cases hread : fs.readFile (resolvePath cfg fs name) <;>
    simp [loadLibrary, hmiss, hread]

/-- Witness for C3: the three resolution cases and the recorded read, at
concrete names and filesystems. -/
theorem resolvePath_order_witness :
    resolvePath ⟨"JQ", "ROOT"⟩ ⟨fun _ => true, fun _ => none⟩ "jquery" = "JQ" ∧
    resolvePath ⟨"JQ", "ROOT"⟩ ⟨fun _ => true, fun _ => none⟩ "/tmp/x.d.ts" = "/tmp/x.d.ts" ∧
    resolvePath ⟨"JQ", "ROOT"⟩ ⟨fun _ => false, fun _ => none⟩ "lib.es6.d.ts" =
      "ROOT" ++ "/" ++ "lib.es6.d.ts" ∧
    (loadLibrary ⟨"JQ", "ROOT"⟩ ⟨fun _ => false, fun _ => none⟩ ⟨[], [], []⟩
        "lib.es6.d.ts").2.reads = [] ++ ["ROOT" ++ "/" ++ "lib.es6.d.ts"] :=
  ⟨(resolvePath_order ⟨"JQ", "ROOT"⟩ ⟨fun _ => true, fun _ => none⟩ ⟨[], [], []⟩ "x").1,
    (resolvePath_order ⟨"JQ", "ROOT"⟩ ⟨fun _ => true, fun _ => none⟩ ⟨[], [], []⟩
      "/tmp/x.d.ts").2.1 (by decide) rfl,
    (resolvePath_order ⟨"JQ", "ROOT"⟩ ⟨fun _ => false, fun _ => none⟩ ⟨[], [], []⟩
      "lib.es6.d.ts").2.2.1 (by decide) rfl,
    (resolvePath_order ⟨"JQ", "ROOT"⟩ ⟨fun _ => false, fun _ => none⟩ ⟨[], [], []⟩
      "lib.es6.d.ts").2.2.2 rfl⟩

/-! ## Claim C5 — mode `format` is null exactly on blank selections -/

/-- C5: for both the javascript and the less mode, `format` returns `null`
exactly when the selected text is blank after trimming, and otherwise a
single edit whose range is the requested range (and never raises: the
embedding is total). -/
theorem modeFormat_blank_iff (pretty : String → String) (text : String)
    (range : RangeL) (tabSize : Nat) (insertSpaces : Bool) :
    (jsModeFormat pretty text range tabSize insertSpaces = none ↔ trimStr text = "") ∧
    (lessModeFormat pretty text range tabSize insertSpaces = none ↔ trimStr text = "") ∧
    (trimStr text ≠ "" →
      jsModeFormat pretty text range tabSize insertSpaces =
        some [{ range := range, newText := format pretty text tabSize insertSpaces }] ∧
      lessModeFormat pretty text range tabSize insertSpaces =
        some [{ range := range, newText := format pretty text tabSize insertSpaces }]) := by
  unfold jsModeFormat lessModeFormat
  by_cases h : trimStr text = "" <;> simp [h]

/-- Witness for C5 at a non-blank and a blank selection. -/
theorem modeFormat_blank_iff_witness :
    (jsModeFormat (fun s => s) "a;" ⟨⟨0, 0⟩, ⟨0, 2⟩⟩ 4 true = none ↔
      trimStr "a;" = "") ∧
    jsModeFormat (fun s => s) "a;" ⟨⟨0, 0⟩, ⟨0, 2⟩⟩ 4 true =
      some [{ range := ⟨⟨0, 0⟩, ⟨0, 2⟩⟩, newText := format (fun s => s) "a;" 4 true }] ∧
    lessModeFormat (fun s => s) " \n " ⟨⟨0, 0⟩, ⟨1, 1⟩⟩ 4 true = none :=
  ⟨(modeFormat_blank_iff (fun s => s) "a;" ⟨⟨0, 0⟩, ⟨0, 2⟩⟩ 4 true).1,
    ((modeFormat_blank_iff (fun s => s) "a;" ⟨⟨0, 0⟩, ⟨0, 2⟩⟩ 4 true).2.2 (by decide)).1,
    (modeFormat_blank_iff (fun s => s) " \n " ⟨⟨0, 0⟩, ⟨1, 1⟩⟩ 4 true).2.1.mpr (by decide)⟩

/-! ## Claim C6 — `doComplete` yields an empty list, never a failure -/

/-- C6: when the underlying analyzer produces no completions, the
javascript mode's `doComplete` returns `isIncomplete := false` with no
items (rather than failing — the embedding is total), and the less mode
passes the service's empty completion list through unchanged. -/
theorem doComplete_empty (docUri : String) (position : Pos) (offset : Nat)
    (replaceRange : RangeL) :
    doComplete none docUri position offset replaceRange =
      { isIncomplete := false, items := [] } ∧
    lessDoComplete { isIncomplete := false, items := [] } =
      { isIncomplete := false, items := [] } :=
  ⟨rfl, rfl⟩

/-! ## Claim C7 — definitions and references stay in the host document -/

/-- C7: every location returned by the javascript mode's `findDefinition`
and `findReferences` carries the host document's uri, and entries the
analyzer reports for any file other than the synthetic script file are
discarded (the result has exactly one location per retained entry). -/
theorem findDefinition_findReferences_host_only (positionAt : Nat → Pos)
    (docUri : String) (entries : List TsFileSpan) :
    (∀ l ∈ (findDefinition positionAt docUri (some entries)).getD [], l.uri = docUri) ∧
    (∀ l ∈ findReferences positionAt docUri (some entries), l.uri = docUri) ∧
    ((findDefinition positionAt docUri (some entries)).getD []).length =
      (entries.filter (fun d => d.fileName = FILE_NAME)).length ∧
    (findReferences positionAt docUri (some entries)).length =
      (entries.filter (fun d => d.fileName = FILE_NAME)).length ∧
    findDefinition positionAt docUri none = none ∧
    findReferences positionAt docUri none = [] := by
  refine ⟨?_, ?_, by simp [findDefinition], by simp [findReferences], rfl, rfl⟩ <;>
  · intro l hl
    simp only [findDefinition, findReferences, Option.getD_some, List.mem_map] at hl
    obtain ⟨a, _, rfl⟩ := hl
    rfl

/-- Witness for C7: one retained in-file entry, one discarded foreign
entry. -/
theorem findDefinition_findReferences_host_only_witness :
    ((findDefinition (fun n => ⟨0, n⟩) "file:///h.blade.php"
        (some [⟨FILE_NAME, some 1, some 2⟩, ⟨"other.ts", some 0, none⟩])).getD []).length =
      1 ∧
    ({ uri := "file:///h.blade.php", range := ⟨⟨0, 1⟩, ⟨0, 3⟩⟩ } : Loc).uri =
      "file:///h.blade.php" :=
  ⟨(findDefinition_findReferences_host_only (fun n => ⟨0, n⟩) "file:///h.blade.php"
      [⟨FILE_NAME, some 1, some 2⟩, ⟨"other.ts", some 0, none⟩]).2.2.1,
    (findDefinition_findReferences_host_only (fun n => ⟨0, n⟩) "file:///h.blade.php"
      [⟨FILE_NAME, some 1, some 2⟩, ⟨"other.ts", some 0, none⟩]).2.1
      { uri := "file:///h.blade.php", range := ⟨⟨0, 1⟩, ⟨0, 3⟩⟩ } (by decide)⟩

/-! ## Claim C10 — no strictly-spanning directive: empty list, not null -/

/-- C10: when no `@include`/`@extends` match on the line satisfies
`start < character` and `character < end` (both strict), the peek returns
the empty definition list — never `null`; in particular a cursor exactly at
a directive's first character or exactly at its end yields no
definition. -/
theorem peekFileDefinition_no_hit_empty (lineText : String) (character : Nat)
    (folders : List String) (docUri viewsPath : String)
    (h : ∀ p ∈ findIncludeParts lineText, ¬(p.start < character ∧ character < p.stop)) :
    peekFileDefinition lineText character folders docUri viewsPath = [] := by
  unfold peekFileDefinition
  by_cases hg : lineText ≠ "" ∧ trimStr lineText ≠ ""
  · have hfil : (findIncludeParts lineText).filter
        (fun part => part.start < character && character < part.stop) = [] := by
      rw [List.filter_eq_nil_iff]
      intro p hp
      simpa using h p hp
    simp [hg, hfil]
  · simp [hg]

/-- Witness for C10: a cursor exactly at the first character of a
directive (`start = 0 = character`) yields the empty list. -/
theorem peekFileDefinition_no_hit_empty_witness :
    peekFileDefinition "@include(\"a\")" 0 [] "file:///d" "views" = [] :=
  peekFileDefinition_no_hit_empty "@include(\"a\")" 0 [] "file:///d" "views" (by decide)

/-! ## Claim C9 — template-include jump-to-definition synthesizes its uri -/

/-- Joining a pre-joined pair onto further segments equals joining the
flattened list: `joinUri(joinUri(a, b), ...rest) = joinUri(a, b, ...rest)`. -/
theorem joinStrs_cons_cons (sep a b : String) (rest : List String) :
    joinStrs sep ((a ++ sep ++ b) :: rest) = joinStrs sep (a :: b :: rest) := by
  cases rest with
  | nil => rfl
  | cons r rs =>
    show (a ++ sep ++ b) ++ sep ++ joinStrs sep (r :: rs) =
      a ++ sep ++ (b ++ sep ++ joinStrs sep (r :: rs))
    simp only [String.append_assoc]

/-- C9: when an `@include`/`@extends` match on the cursor's line strictly
spans the cursor column, `peekFileDefinition` returns exactly one location:
its uri joins the workspace uri, the configured views path, and the
template name with dots turned into path separators, plus the
`.blade.php` suffix; its range is zero-length at line 0, column 0.  No
filesystem access is involved (the embedding takes no filesystem), so no
existence check is performed on the synthesized path. -/
theorem peekFileDefinition_hit (lineText : String) (character : Nat)
    (folders : List String) (docUri viewsPath ws : String) (p : IncludePart)
    (ps : List IncludePart)
    (hws : getWorkspacePath folders docUri = some ws)
    (htrim : trimStr lineText ≠ "")
    (hfilter : (findIncludeParts lineText).filter
        (fun part => part.start < character && character < part.stop) = p :: ps) :
    peekFileDefinition lineText character folders docUri viewsPath =
      [{ uri := joinStrs "/" (ws :: viewsPath :: splitOnStr '.' p.template) ++ ".blade.php",
         range := { start := ⟨0, 0⟩, stop := ⟨0, 0⟩ } }] := by
  have hne : lineText ≠ "" := by
    intro he
    exact htrim (by rw [he]; rfl)
  unfold peekFileDefinition
  rw [if_pos ⟨hne, htrim⟩, hws]
  dsimp only
  rw [hfilter]
  show [({ uri := joinUri ((ws ++ "/" ++ viewsPath) :: splitOnStr '.' p.template)
      ++ ".blade.php", range := { start := ⟨0, 0⟩, stop := ⟨0, 0⟩ } } : Loc)] = _
  unfold joinUri
  rw [joinStrs_cons_cons]

/-- Witness for C9: a concrete `@include` directive, cursor inside it, a
matching workspace folder, and the fully synthesized uri. -/
theorem peekFileDefinition_hit_witness :
    peekFileDefinition "@include(\"a.b\")" 3 ["file:///ws"] "file:///ws/r.blade.php"
        "res/views" =
      [{ uri := "file:///ws/res/views/a/b.blade.php",
         range := { start := ⟨0, 0⟩, stop := ⟨0, 0⟩ } }] :=
  peekFileDefinition_hit "@include(\"a.b\")" 3 ["file:///ws"] "file:///ws/r.blade.php"
    "res/views" "file:///ws" ⟨0, 14, "@include(\"a.b\"", "a.b"⟩ [] (by decide) (by decide)
    (by decide)

/-! ## Claim C4 — the script-file version counter and reparse avoidance -/

/-- Once the tracked sub-document carries the incoming `(uri, version)`,
further updates with documents of that same `(uri, version)` neither bump
the counter nor re-fetch. -/
theorem updateMany_steady (extract : String → String) (u : String) (v : Int)
    (st : JsState) (c : HostDoc) (hc : st.current = some c) (hu : c.uri = u)
    (hv : c.version = v) (docs : List HostDoc)
    (hd : ∀ d ∈ docs, d.uri = u ∧ d.version = v) :
    updateMany extract st docs = (st, 0) := by
  induction docs with
  | nil => rfl
  | cons d ds ih =>
    have hdu := (hd d (by simp)).1
    have hdv := (hd d (by simp)).2
    have hstep : updateCurrentTextDocument extract st d = (st, false) := by
      unfold updateCurrentTextDocument
      rw [hc]
      have : (d.uri ≠ c.uri ∨ d.version ≠ c.version) = False := by
        simp [hdu, hdv, hu, hv]
      simp [this]
    show updateMany extract st (d :: ds) = (st, 0)
    unfold updateMany
    rw [hstep]
    simp [ih (fun d hd2 => hd d (by simp [hd2]))]

/-- C4: the `scriptFileVersion` counter never decreases across an update;
when it changes it changes by exactly one and only because the incoming
document's uri or version differed from the tracked document (or nothing
was tracked yet); an update whose `(uri, version)` matches the tracked
document is a complete no-op without a re-fetch; and after any update,
every further request carrying the same `(uri, version)` as the updated
document leaves the state untouched and fetches the embedded sub-document
zero times. -/
theorem updateCurrentTextDocument_guard (extract : String → String) (st : JsState)
    (doc : HostDoc) (docs : List HostDoc) :
    st.scriptFileVersion ≤
      (updateCurrentTextDocument extract st doc).1.scriptFileVersion ∧
    ((updateCurrentTextDocument extract st doc).1.scriptFileVersion ≠
        st.scriptFileVersion →
      (updateCurrentTextDocument extract st doc).1.scriptFileVersion =
        st.scriptFileVersion + 1 ∧
      (st.current = none ∨ ∃ cur, st.current = some cur ∧
        (doc.uri ≠ cur.uri ∨ doc.version ≠ cur.version))) ∧
    (∀ cur, st.current = some cur → cur.uri = doc.uri → cur.version = doc.version →
      updateCurrentTextDocument extract st doc = (st, false)) ∧
    ((∀ d ∈ docs, d.uri = doc.uri ∧ d.version = doc.version) →
      updateMany extract (updateCurrentTextDocument extract st doc).1 docs =
        ((updateCurrentTextDocument extract st doc).1, 0)) := by
  refine ⟨?_, ?_, ?_, ?_⟩
  · unfold updateCurrentTextDocument
    cases st.current with
    | none => simp
    | some cur =>
      by_cases h : doc.uri ≠ cur.uri ∨ doc.version ≠ cur.version <;> simp [h]
  · intro hne
    cases hcur : st.current with
    | none =>
      exact ⟨by simp [updateCurrentTextDocument, hcur], Or.inl rfl⟩
    | some cur =>
      by_cases h : doc.uri ≠ cur.uri ∨ doc.version ≠ cur.version
      · exact ⟨by simp [updateCurrentTextDocument, hcur, h], Or.inr ⟨cur, rfl, h⟩⟩
      · exact absurd (by simp [updateCurrentTextDocument, hcur, h]) hne
  · intro cur hcur hu hv
    simp [updateCurrentTextDocument, hcur, hu, hv]
  · intro hd
    cases hcur : st.current with
    | none =>
      have hcur2 : (updateCurrentTextDocument extract st doc).1.current =
          some (embedDoc extract doc) := by
        simp [updateCurrentTextDocument, hcur]
      exact updateMany_steady extract doc.uri doc.version _ (embedDoc extract doc)
        hcur2 rfl rfl docs hd
    | some cur =>
      by_cases h : doc.uri ≠ cur.uri ∨ doc.version ≠ cur.version
      · have hcur2 : (updateCurrentTextDocument extract st doc).1.current =
            some (embedDoc extract doc) := by
          simp [updateCurrentTextDocument, hcur, h]
        exact updateMany_steady extract doc.uri doc.version _ (embedDoc extract doc)
          hcur2 rfl rfl docs hd
      · push_neg at h
        have heq : updateCurrentTextDocument extract st doc = (st, false) := by
          simp [updateCurrentTextDocument, hcur, h.1, h.2]
        rw [heq]
        exact updateMany_steady extract doc.uri doc.version st cur hcur h.1.symm
          h.2.symm docs hd

/-- Witness for C4 at a fresh state, a tracked state, and a repeated
request list. -/
theorem updateCurrentTextDocument_guard_witness :
    updateCurrentTextDocument (fun s => s) ⟨some ⟨"file:///h", 7, "x"⟩, 5⟩
        ⟨"file:///h", 7, "y"⟩ = (⟨some ⟨"file:///h", 7, "x"⟩, 5⟩, false) ∧
    updateMany (fun s => s)
        (updateCurrentTextDocument (fun s => s) ⟨none, 0⟩ ⟨"file:///h", 1, "t"⟩).1
        [⟨"file:///h", 1, "t"⟩, ⟨"file:///h", 1, "t"⟩] =
      ((updateCurrentTextDocument (fun s => s) ⟨none, 0⟩ ⟨"file:///h", 1, "t"⟩).1, 0) :=
  ⟨(updateCurrentTextDocument_guard (fun s => s) ⟨some ⟨"file:///h", 7, "x"⟩, 5⟩
      ⟨"file:///h", 7, "y"⟩ []).2.2.1 ⟨"file:///h", 7, "x"⟩ rfl rfl rfl,
    (updateCurrentTextDocument_guard (fun s => s) ⟨none, 0⟩ ⟨"file:///h", 1, "t"⟩
      [⟨"file:///h", 1, "t"⟩, ⟨"file:///h", 1, "t"⟩]).2.2.2 (by decide)⟩

/-! ## Claim C1 — re-indentation of formatter output -/

/-- C1 counterexample: with a four-space indent context preceding the end
of the range (`text = "x;\n    "`, tab size 4, spaces), the claim predicts
every output line gets exactly the four-space prefix, i.e. the result
`"\n    a\n    "` for formatter output `"a"`.  The code instead prefixes
eight spaces — the captured indent plus one extra indent unit. -/
theorem format_exact_indent_counterexample :
    tagIndentOf "x;\n    " = "\n    " ∧
    format (fun _ => "a") "x;\n    " 4 true = "\n        a\n    " ∧
    format (fun _ => "a") "x;\n    " 4 true ≠ "\n" ++ "    " ++ "a" ++ "\n    " := by
  refine ⟨by decide, by decide, by decide⟩

/-- C1 amended: on a non-blank selection the single returned edit's
replacement text is built from the formatter output line by line, each
line prefixed with the captured preceding indent PLUS one additional
indent unit (`tabSize` spaces when `insertSpaces`, one tab otherwise); the
joined body is trimmed at its end and the original trailing-whitespace
suffix of the range text is re-attached verbatim. -/
theorem format_indent_amended (pretty : String → String) (text : String)
    (range : RangeL) (tabSize : Nat) (insertSpaces : Bool)
    (htrim : trimStr text ≠ "") :
    ∃ body : List String,
      jsModeFormat pretty text range tabSize insertSpaces =
        some [{ range := range,
                newText := ("\n" ++ trimEndStr (joinStrs "\n" body)) ++ tagIndentOf text }] ∧
      body.length = (splitOnStr '\n' (pretty text)).length ∧
      ∀ i, ∀ hb : i < body.length, ∀ hp : i < (splitOnStr '\n' (pretty text)).length,
        body.get ⟨i, hb⟩ =
          (prefixIndentOf text ++ indentUnit tabSize insertSpaces) ++
            (splitOnStr '\n' (pretty text)).get ⟨i, hp⟩ := by
  refine ⟨(splitOnStr '\n' (pretty text)).map
      (fun line => (prefixIndentOf text ++ indentUnit tabSize insertSpaces) ++ line),
    by simp [jsModeFormat, htrim, format], by simp, ?_⟩
  intro i hb hp
  simp [List.get_eq_getElem, List.getElem_map]

/-- Witness for C1 amended at a concrete two-line formatter output and a
two-space indent context. -/
theorem format_indent_amended_witness :
    ∃ body : List String,
      jsModeFormat (fun _ => "a;\nb;") "x\n  " ⟨⟨0, 0⟩, ⟨1, 2⟩⟩ 2 true =
        some [{ range := ⟨⟨0, 0⟩, ⟨1, 2⟩⟩,
                newText := ("\n" ++ trimEndStr (joinStrs "\n" body)) ++
                  tagIndentOf "x\n  " }] ∧
      body.length = (splitOnStr '\n' ((fun _ => "a;\nb;") "x\n  ")).length ∧
      ∀ i, ∀ hb : i < body.length,
        ∀ hp : i < (splitOnStr '\n' ((fun _ => "a;\nb;") "x\n  ")).length,
        body.get ⟨i, hb⟩ =
          (prefixIndentOf "x\n  " ++ indentUnit 2 true) ++
            (splitOnStr '\n' ((fun _ => "a;\nb;") "x\n  ")).get ⟨i, hp⟩ :=
  format_indent_amended (fun _ => "a;\nb;") "x\n  " ⟨⟨0, 0⟩, ⟨1, 2⟩⟩ 2 true (by decide)

/-! ## Claim C8 — symbol deduplication and container labels -/

/-- C8 counterexample: a root navigation item of kind `script` named
`<global>` with two children both named `x` at start offset 0, one of raw
kind `var` and one of raw kind `const`.  Both convert to symbol kind
`variable`, their signature strings (`"xvar0"`, `"xconst0"`) differ, so
both are returned: two symbols with identical (name, kind, startOffset).
Moreover each child's `containerName` is `none`, not the parent's name
`<global>`, because the skipped `script` parent never becomes a container
label. -/
theorem findDocumentSymbols_dedup_counterexample :
    findDocumentSymbols (fun n => ⟨0, n⟩) "file:///h"
        (some (.cons (.mk "<global>" "script" 0 5
          (.cons (.mk "x" "var" 0 1 .nil) (.cons (.mk "x" "const" 0 1 .nil) .nil))) .nil)) =
      [{ name := "x", kind := .variable,
         location := { uri := "file:///h", range := { start := ⟨0, 0⟩, stop := ⟨0, 1⟩ } },
         containerName := none },
       { name := "x", kind := .variable,
         location := { uri := "file:///h", range := { start := ⟨0, 0⟩, stop := ⟨0, 1⟩ } },
         containerName := none }] := by
  decide

mutual

/-- The collector only appends to the `result` array. -/
theorem collectSymbols_result_mono (positionAt : Nat → Pos) (docUri : String)
    (item : NavItem) (cl : Option String)
    (acc : List SymbolInformationL × List String) :
    acc.1 <+: (collectSymbols positionAt docUri item cl acc).1 := by
  cases item with
  | mk text kind spanStart spanLength children =>
    simp only [collectSymbols]
    by_cases h : kind ≠ "script" ∧
        navSig (NavItem.mk text kind spanStart spanLength children) ∉ acc.2
    · rw [if_pos h]
      dsimp only
      exact List.IsPrefix.trans (List.prefix_append _ _)
        (collectSymbolsList_result_mono positionAt docUri children (some text)
          (acc.1 ++ [navSymbol positionAt docUri
              (NavItem.mk text kind spanStart spanLength children) cl],
           acc.2 ++ [navSig (NavItem.mk text kind spanStart spanLength children)]))
    · rw [if_neg h]
      exact collectSymbolsList_result_mono positionAt docUri children cl acc

/-- The loop over a forest only appends to the `result` array. -/
theorem collectSymbolsList_result_mono (positionAt : Nat → Pos) (docUri : String)
    (forest : NavForest) (cl : Option String)
    (acc : List SymbolInformationL × List String) :
    acc.1 <+: (collectSymbolsList positionAt docUri forest cl acc).1 := by
  cases forest with
  | nil => exact List.prefix_rfl
  | cons item rest =>
    simp only [collectSymbolsList]
    exact List.IsPrefix.trans (collectSymbols_result_mono positionAt docUri item cl acc)
      (collectSymbolsList_result_mono positionAt docUri rest cl _)

end

mutual

/-- The signature set stays duplicate-free through one item: every
insertion is guarded by non-membership. -/
theorem collectSymbols_sig_nodup (positionAt : Nat → Pos) (docUri : String)
    (item : NavItem) (cl : Option String)
    (acc : List SymbolInformationL × List String) (hnd : acc.2.Nodup) :
    (collectSymbols positionAt docUri item cl acc).2.Nodup := by
  cases item with
  | mk text kind spanStart spanLength children =>
    simp only [collectSymbols]
    by_cases h : kind ≠ "script" ∧
        navSig (NavItem.mk text kind spanStart spanLength children) ∉ acc.2
    · rw [if_pos h]
      dsimp only
      exact collectSymbolsList_sig_nodup positionAt docUri children _ _
        (by simp [List.nodup_append, hnd, h.2])
    · rw [if_neg h]
      exact collectSymbolsList_sig_nodup positionAt docUri children cl acc hnd

/-- The signature set stays duplicate-free through a forest. -/
theorem collectSymbolsList_sig_nodup (positionAt : Nat → Pos) (docUri : String)
    (forest : NavForest) (cl : Option String)
    (acc : List SymbolInformationL × List String) (hnd : acc.2.Nodup) :
    (collectSymbolsList positionAt docUri forest cl acc).2.Nodup := by
  cases forest with
  | nil => exact hnd
  | cons item rest =>
    simp only [collectSymbolsList]
    exact collectSymbolsList_sig_nodup positionAt docUri rest cl _
      (collectSymbols_sig_nodup positionAt docUri item cl acc hnd)

end

mutual

/-- One result symbol is emitted per recorded signature (item case). -/
theorem collectSymbols_len (positionAt : Nat → Pos) (docUri : String)
    (item : NavItem) (cl : Option String)
    (acc : List SymbolInformationL × List String) :
    (collectSymbols positionAt docUri item cl acc).1.length + acc.2.length =
      (collectSymbols positionAt docUri item cl acc).2.length + acc.1.length := by
  cases item with
  | mk text kind spanStart spanLength children =>
    simp only [collectSymbols]
    by_cases h : kind ≠ "script" ∧
        navSig (NavItem.mk text kind spanStart spanLength children) ∉ acc.2
    · rw [if_pos h]
      dsimp only
      have hrec := collectSymbolsList_len positionAt docUri children (some text)
        (acc.1 ++ [navSymbol positionAt docUri
            (NavItem.mk text kind spanStart spanLength children) cl],
         acc.2 ++ [navSig (NavItem.mk text kind spanStart spanLength children)])
      simp only [List.length_append, List.length_cons, List.length_nil] at hrec ⊢
      omega
    · rw [if_neg h]
      dsimp only
      exact collectSymbolsList_len positionAt docUri children cl acc

/-- One result symbol is emitted per recorded signature (forest case). -/
theorem collectSymbolsList_len (positionAt : Nat → Pos) (docUri : String)
    (forest : NavForest) (cl : Option String)
    (acc : List SymbolInformationL × List String) :
    (collectSymbolsList positionAt docUri forest cl acc).1.length + acc.2.length =
      (collectSymbolsList positionAt docUri forest cl acc).2.length + acc.1.length := by
  cases forest with
  | nil => simp only [collectSymbolsList]; omega
  | cons item rest =>
    simp only [collectSymbolsList]
    have h1 := collectSymbols_len positionAt docUri item cl acc
    have h2 := collectSymbolsList_len positionAt docUri rest cl
      (collectSymbols positionAt docUri item cl acc)
    omega

end

mutual

/-- Every symbol emitted below an item carries as container either the
incoming label or the name of some emitted symbol (item case). -/
theorem collectSymbols_container (positionAt : Nat → Pos) (docUri : String)
    (item : NavItem) (cl : Option String)
    (acc : List SymbolInformationL × List String) :
    ∀ s ∈ (collectSymbols positionAt docUri item cl acc).1,
      s ∈ acc.1 ∨ s.containerName = cl ∨
        ∃ s', s' ∈ (collectSymbols positionAt docUri item cl acc).1 ∧
          s.containerName = some s'.name := by
  cases item with
  | mk text kind spanStart spanLength children =>
    simp only [collectSymbols]
    by_cases h : kind ≠ "script" ∧
        navSig (NavItem.mk text kind spanStart spanLength children) ∉ acc.2
    · rw [if_pos h]
      dsimp only
      intro s hs
      rcases collectSymbolsList_container positionAt docUri children (some text)
          (acc.1 ++ [navSymbol positionAt docUri
              (NavItem.mk text kind spanStart spanLength children) cl],
           acc.2 ++ [navSig (NavItem.mk text kind spanStart spanLength children)])
          s hs with hmem | hcn | ⟨s', hs', hcn⟩
      · rcases List.mem_append.mp hmem with h1 | h2
        · exact Or.inl h1
        · have hseq : s = navSymbol positionAt docUri
              (NavItem.mk text kind spanStart spanLength children) cl := by
            simpa using h2
          exact Or.inr (Or.inl (by rw [hseq]; rfl))
      · refine Or.inr (Or.inr ⟨navSymbol positionAt docUri
            (NavItem.mk text kind spanStart spanLength children) cl, ?_, by rw [hcn]; rfl⟩)
        exact (collectSymbolsList_result_mono positionAt docUri children (some text)
          _).subset (by simp)
      · exact Or.inr (Or.inr ⟨s', hs', hcn⟩)
    · rw [if_neg h]
      dsimp only
      exact collectSymbolsList_container positionAt docUri children cl acc

/-- Every symbol emitted below a forest carries as container either the
incoming label or the name of some emitted symbol (forest case). -/
theorem collectSymbolsList_container (positionAt : Nat → Pos) (docUri : String)
    (forest : NavForest) (cl : Option String)
    (acc : List SymbolInformationL × List String) :
    ∀ s ∈ (collectSymbolsList positionAt docUri forest cl acc).1,
      s ∈ acc.1 ∨ s.containerName = cl ∨
        ∃ s', s' ∈ (collectSymbolsList positionAt docUri forest cl acc).1 ∧
          s.containerName = some s'.name := by
  cases forest with
  | nil => exact fun s hs => Or.inl hs
  | cons item rest =>
    simp only [collectSymbolsList]
    intro s hs
    rcases collectSymbolsList_container positionAt docUri rest cl
        (collectSymbols positionAt docUri item cl acc) s hs with hmem | hcn | ⟨s', hs', hcn⟩
    · rcases collectSymbols_container positionAt docUri item cl acc s hmem with
        h1 | h2 | ⟨s', hs', hcn⟩
      · exact Or.inl h1
      · exact Or.inr (Or.inl h2)
      · refine Or.inr (Or.inr ⟨s', ?_, hcn⟩)
        exact (collectSymbolsList_result_mono positionAt docUri rest cl _).subset hs'
    · exact Or.inr (Or.inl hcn)
    · exact Or.inr (Or.inr ⟨s', hs', hcn⟩)

end

/-- C8 amended: `findDocumentSymbols` deduplicates on the raw signature
string `text ++ kind ++ startOffset` of the analyzer's items: the recorded
signature list is duplicate-free and the number of returned symbols equals
the number of recorded signatures, so no two returned symbols originate
from items sharing that signature (items with distinct raw kind strings
that convert to the same symbol kind can still both be returned with
equal (name, kind, startOffset)).  Each returned symbol's `containerName`
is either absent or the name of another returned symbol — the nearest
emitted ancestor, not necessarily the direct parent. -/
theorem findDocumentSymbols_amended (positionAt : Nat → Pos) (docUri : String)
    (items : NavForest) :
    (collectSymbolsList positionAt docUri items none ([], [])).2.Nodup ∧
    (findDocumentSymbols positionAt docUri (some items)).length =
      (collectSymbolsList positionAt docUri items none ([], [])).2.length ∧
    ∀ s ∈ findDocumentSymbols positionAt docUri (some items),
      s.containerName = none ∨
        ∃ s', s' ∈ findDocumentSymbols positionAt docUri (some items) ∧
          s.containerName = some s'.name := by
  refine ⟨collectSymbolsList_sig_nodup positionAt docUri items none ([], [])
    (by simp), ?_, ?_⟩
  · have h := collectSymbolsList_len positionAt docUri items none ([], [])
    simpa [findDocumentSymbols] using h
  · intro s hs
    rcases collectSymbolsList_container positionAt docUri items none ([], []) s
        (by simpa [findDocumentSymbols] using hs) with hmem | hcn | ⟨s', hs', hcn⟩
    · simp at hmem
    · exact Or.inl hcn
    · exact Or.inr ⟨s', by simpa [findDocumentSymbols] using hs', hcn⟩

/-- Witness for C8 amended at a one-item forest. -/
theorem findDocumentSymbols_amended_witness :
    (collectSymbolsList (fun n => ⟨0, n⟩) "file:///h"
        (.cons (.mk "f" "function" 2 3 .nil) .nil) none ([], [])).2.Nodup ∧
    (({ name := "f", kind := .function,
        location := { uri := "file:///h", range := ⟨⟨0, 2⟩, ⟨0, 5⟩⟩ },
        containerName := none } : SymbolInformationL).containerName = none ∨
      ∃ s', s' ∈ findDocumentSymbols (fun n => ⟨0, n⟩) "file:///h"
          (some (.cons (.mk "f" "function" 2 3 .nil) .nil)) ∧
        ({ name := "f", kind := .function,
           location := { uri := "file:///h", range := ⟨⟨0, 2⟩, ⟨0, 5⟩⟩ },
           containerName := none } : SymbolInformationL).containerName = some s'.name) :=
  ⟨(findDocumentSymbols_amended (fun n => ⟨0, n⟩) "file:///h"
      (.cons (.mk "f" "function" 2 3 .nil) .nil)).1,
    (findDocumentSymbols_amended (fun n => ⟨0, n⟩) "file:///h"
      (.cons (.mk "f" "function" 2 3 .nil) .nil)).2.2
      { name := "f", kind := .function,
        location := { uri := "file:///h", range := ⟨⟨0, 2⟩, ⟨0, 5⟩⟩ },
        containerName := none } (by decide)⟩

end Blade
